import Mathlib

/-!
Shallow embedding of the resource-aware model lifecycle subsystem of the
tamivla-ai-server repository: the model manager (src/services/model_manager.py),
the cache scanner (src/services/model_discovery.py) and the quantization /
capacity planner (src/services/quantization_service.py).

Model names are Python strings, embedded as lists of characters.  The local
model cache is embedded as the list of names that exist directly under the
cache root.  The resident-model dictionary is embedded as an association list
whose operations mirror Python dict lookup / assignment / pop.
-/

set_option synthInstance.maxHeartbeats 400000

namespace Tamivla

/-- A model name / path component: a Python string as a list of characters. -/
abbrev Name := List Char

/-- The canonical HF cache marker `models--` (start of canonical directory names). -/
def modelsTag : Name := "models--".data

/-- Python `model_name.replace('/', '--')` for the single-character pattern `/`:
every `/` becomes the two characters `--`. -/
def replaceSlashes : Name → Name
  | [] => []
  | c :: r => if c = '/' then '-' :: '-' :: replaceSlashes r else c :: replaceSlashes r

/-- `ModelManager._normalize_model_name`: keep a name that already starts with
`models--`; rewrite `org/model` to `models--org--model`; otherwise keep unchanged. -/
def normalizeModelName (n : Name) : Name :=
  if modelsTag.isPrefixOf n then n
  else if n.contains '/' then modelsTag ++ replaceSlashes n
  else n

/-- One value of the resident dictionary `ModelManager.loaded_models`:
the keys `type`, `status`, `model` (opaque runtime handle), `device`,
`local_path` of the Python dict stored per loaded model. -/
structure LoadedEntry where
  mtype : String
  status : String
  model : Nat
  device : String
  local_path : Name
deriving DecidableEq, Repr

/-- The resident-model dictionary, as an association list keyed by normalized name. -/
abbrev MState := List (Name × LoadedEntry)

/-- Python dict lookup `loaded_models.get(k)` / `k in loaded_models`. -/
def lookupKey (k : Name) : MState → Option LoadedEntry
  | [] => none
  | (k', v) :: t => if k' = k then some v else lookupKey k t

/-- Python dict `pop(k)`: remove the binding of `k` (every binding, which on a
real dict is at most one). -/
def eraseKey (k : Name) : MState → MState
  | [] => []
  | (k', v) :: t => if k' = k then eraseKey k t else (k', v) :: eraseKey k t

/-- Python dict assignment `loaded_models[k] = v`. -/
def insertKey (k : Name) (v : LoadedEntry) (s : MState) : MState :=
  (k, v) :: eraseKey k s

/-- Number of bindings a key has in the resident map (1 on a well-formed dict state). -/
def countKey (k : Name) : MState → Nat
  | [] => 0
  | (k', _) :: t => (if k' = k then 1 else 0) + countKey k t

/-- A dict-like state: every key bound at most once (always true of a Python dict). -/
def keysNodup (s : MState) : Prop := (s.map Prod.fst).Nodup

/-- `ModelManager._get_local_model_path`: normalize the name, return the path
`models_cache / normalized` when it exists on disk, else `None`.  `fs` is the
set of entry names that exist under the cache root; the returned path is
identified with the normalized name (the cache root is fixed). -/
def getLocalModelPath (fs : List Name) (n : Name) : Option Name :=
  let normalized := normalizeModelName n
  if fs.contains normalized then some normalized else none

/-- Environment of `load_model`: the cache-root contents, CUDA availability and
the two third-party loaders (SentenceTransformer / transformers pipeline), each
returning a runtime handle or failing (raising, embedded as `none`). -/
structure LoaderEnv where
  fs : List Name
  cudaAvailable : Bool
  loadEmbedding : Name → Option Nat
  loadLLM : Name → Option Nat

/-- Externally visible action of one `load_model` call: a third-party loader
invocation on a local path, or a network fetch (which `load_model` never
performs: models are loaded exclusively from the local cache). -/
inductive ManagerAction where
  | loaderInvoke (mtype : String) (path : Name)
  | networkFetch
deriving DecidableEq, Repr

/-- Result of one `load_model` call: returned boolean, resident map afterwards,
actions performed. -/
structure LoadResult where
  ok : Bool
  state : MState
  actions : List ManagerAction
deriving DecidableEq, Repr

/-- `ModelManager.load_model`: normalize; short-circuit with success when the
normalized name is already resident; otherwise resolve the local path (fail
closed when absent); dispatch on the model type to the matching loader
(an unsupported type raises `ValueError`, caught by the outer handler as a
`False` return); register the entry only on loader success. -/
def loadModel (env : LoaderEnv) (s : MState) (name : Name) (mtype : String) : LoadResult :=
  let n := normalizeModelName name
  if (lookupKey n s).isSome then ⟨true, s, []⟩
  else
    match getLocalModelPath env.fs name with
    | none => ⟨false, s, []⟩
    | some path =>
      let dev := if env.cudaAvailable then "cuda" else "cpu"
      if mtype == "embedding" then
        match env.loadEmbedding path with
        | none => ⟨false, s, [ManagerAction.loaderInvoke mtype path]⟩
        | some m =>
          ⟨true, insertKey n ⟨mtype, "loaded", m, dev, path⟩ s,
            [ManagerAction.loaderInvoke mtype path]⟩
      else if mtype == "llm" then
        match env.loadLLM path with
        | none => ⟨false, s, [ManagerAction.loaderInvoke mtype path]⟩
        | some m =>
          ⟨true, insertKey n ⟨mtype, "loaded", m, dev, path⟩ s,
            [ManagerAction.loaderInvoke mtype path]⟩
      else ⟨false, s, []⟩

/-- `ModelManager.unload_model`: normalize, pop the entry when resident (returning
`True`), else return `False` leaving the map untouched. -/
def unloadModel (s : MState) (name : Name) : Bool × MState :=
  let n := normalizeModelName name
  match lookupKey n s with
  | none => (false, s)
  | some _ => (true, eraseKey n s)

/-- `ModelManager.is_model_loaded`: normalized membership test. -/
def isModelLoaded (s : MState) (name : Name) : Bool :=
  (lookupKey (normalizeModelName name) s).isSome

/-- `ModelManager.get_model`: normalized lookup of the runtime handle. -/
def getModel (s : MState) (name : Name) : Option Nat :=
  (lookupKey (normalizeModelName name) s).map (·.model)

/-- `ModelManager.get_model_info`: normalized lookup of the whole entry. -/
def getModelInfo (s : MState) (name : Name) : Option LoadedEntry :=
  lookupKey (normalizeModelName name) s

/-! ### Exact rational arithmetic

The embedding computes on exact rationals.  The kernel cannot evaluate the
standard `ℚ` field operations (they are `@[irreducible]` in core), so the
arithmetic below is written through `mkRat` / `num` / `den`, which do evaluate;
the bridge lemmas in the lemma section further down prove each function equal
to the standard operation, so statements read over ordinary `ℚ` arithmetic. -/

/-- Multiplication on `ℚ` (equal to `a * b`, see `qmul_eq`). -/
def qmul (a b : ℚ) : ℚ := mkRat (a.num * b.num) (a.den * b.den)

/-- Subtraction on `ℚ` (equal to `a - b`, see `qsub_eq`). -/
def qsub (a b : ℚ) : ℚ := mkRat (a.num * (b.den : ℤ) - b.num * (a.den : ℤ)) (a.den * b.den)

/-- Division on `ℚ` (equal to `a / b`, see `qdiv_eq`; division by zero gives zero). -/
def qdiv (a b : ℚ) : ℚ :=
  if 0 ≤ b.num then mkRat (a.num * (b.den : ℤ)) (a.den * b.num.toNat)
  else mkRat (-(a.num * (b.den : ℤ))) (a.den * (-b.num).toNat)

/-- The order on `ℚ` as a boolean (equal to `a ≤ b`, see `qle_iff`). -/
def qle (a b : ℚ) : Bool := decide (a.num * (b.den : ℤ) ≤ b.num * (a.den : ℤ))

/-- The strict order on `ℚ` as a boolean (equal to `a < b`, see `qlt_iff`). -/
def qlt (a b : ℚ) : Bool := decide (a.num * (b.den : ℤ) < b.num * (a.den : ℤ))

/-! ### Cache scanner (`src/services/model_discovery.py`) -/

/-- Python `round` to the nearest integer on exact rationals, ties going to the
even integer (banker's rounding, Python's rule). -/
def pyRound (q : ℚ) : ℤ :=
  let f : ℤ := ⌊q⌋
  let r : ℚ := qsub q (f : ℚ)
  if qlt r (mkRat 1 2) then f
  else if qlt (mkRat 1 2) r then f + 1
  else if f % 2 = 0 then f else f + 1

/-- Python `round(q, 2)` on exact rationals: `round(q * 100) / 100`. -/
def round2 (q : ℚ) : ℚ := mkRat (pyRound (qmul q 100)) 100

/-- Python `round(q, 1)` on exact rationals: `round(q * 10) / 10`. -/
def round1 (q : ℚ) : ℚ := mkRat (pyRound (qmul q 10)) 10

/-- `round(size_bytes / (1024 * 1024), 2)`: a byte count in megabytes, two
decimals (`mkRat b (1024 * 1024)` is exactly `b / (1024 * 1024)`). -/
def bytesToMB (b : Nat) : ℚ := round2 (mkRat b (1024 * 1024))

/-- `pathlib.PurePath.suffix` of a file name: the part from the last dot on,
present only when that dot is neither the first nor the last character. -/
def pathSuffix (n : Name) : Name :=
  let r := n.reverse
  let afterDot := r.takeWhile (fun c => !(c == '.'))
  if afterDot.length < r.length ∧ 0 < afterDot.length ∧ afterDot.length + 1 < r.length then
    '.' :: afterDot.reverse
  else []

/-- Worker of `replaceAll`, structurally recursive on a fuel that bounds the
input length (each step consumes at least one character, so the fuel `l.length`
never runs out). -/
def replaceAllFuel (pat repl : Name) : Nat → Name → Name
  | 0, l => l
  | _ + 1, [] => []
  | fuel + 1, c :: rest =>
    if pat ≠ [] ∧ pat.isPrefixOf (c :: rest) then
      repl ++ replaceAllFuel pat repl fuel ((c :: rest).drop pat.length)
    else c :: replaceAllFuel pat repl fuel rest

/-- Python `s.replace(pat, repl)` for a non-empty pattern: scan left to right,
replace each non-overlapping occurrence, continue after the replacement. -/
def replaceAll (pat repl : Name) (l : Name) : Name :=
  replaceAllFuel pat repl l.length l

/-- Python substring test `pat in s` on strings: contiguous-sublist membership. -/
def isSubstring (pat s : Name) : Bool := decide (pat <:+: s)

/-- One file inside a model directory: name, size in bytes, path relative to
the directory (as produced by `rglob`). -/
structure CacheFile where
  name : Name
  size : Nat
  relpath : Name
deriving DecidableEq, Repr

/-- A directory under the cache root, with all its files (recursively). -/
structure ModelDir where
  name : Name
  files : List CacheFile
deriving DecidableEq, Repr

/-- One immediate entry of the cache root: a plain file or a directory. -/
inductive CacheEntry where
  | file (name : Name) (size : Nat)
  | dir (d : ModelDir)
deriving DecidableEq, Repr

/-- One file record of a `model_info` dict: name, rounded size in MB, relative path. -/
structure FileInfo where
  name : Name
  size_mb : ℚ
  relative_path : Name
deriving DecidableEq, Repr

/-- A `model_info` dict as built by the discovery service. -/
structure ModelInfo where
  name : Name
  display_name : Name
  path : Name
  size_mb : ℚ
  mtype : String
  format : String
  is_gguf : Bool
  is_hf : Bool
  files : List FileInfo
  is_usable : Bool
deriving DecidableEq, Repr

/-- `ModelDiscoveryService._get_display_name`: strip `models--` and turn `--`
back into `/` when the canonical marker occurs in the name. -/
def getDisplayName (n : Name) : Name :=
  if isSubstring modelsTag n then
    replaceAll "--".data "/".data (replaceAll modelsTag [] n)
  else n

/-- `ModelDiscoveryService.get_directory_size_mb` before rounding: total bytes. -/
def dirSizeBytes (d : ModelDir) : Nat := (d.files.map (·.size)).sum

/-- `ModelDiscoveryService._is_valid_model_directory`: the directory name must
start with `models--` and a top-level `config.json` must exist inside. -/
def isValidModelDirectory (d : ModelDir) : Bool :=
  modelsTag.isPrefixOf d.name && d.files.any (fun f => f.relpath == "config.json".data)

/-- `ModelDiscoveryService._analyze_gguf_file`: metadata of a packed GGUF file;
the kind is `embedding` when the lowercased file name mentions an embedding
keyword, else `llm`. -/
def analyzeGgufFile (name : Name) (size : Nat) : ModelInfo :=
  let mb := bytesToMB size
  let lower := name.map Char.toLower
  let mtype :=
    if ["embedding".data, "embed".data, "encoder".data].any (fun k => isSubstring k lower)
    then "embedding" else "llm"
  { name := name, display_name := name, path := name, size_mb := mb, mtype := mtype,
    format := "gguf", is_gguf := true, is_hf := false,
    files := [⟨name, mb, name⟩], is_usable := true }

/-- `ModelDiscoveryService.analyze_model_directory`, parametrized by the kind
classifier `_detect_model_type` (which inspects config contents and file names
but never affects which artifacts the scan keeps, only their `type` field). -/
def analyzeModelDirectory (detect : ModelDir → String) (d : ModelDir) : ModelInfo :=
  { name := d.name, display_name := getDisplayName d.name, path := d.name,
    size_mb := bytesToMB (dirSizeBytes d), mtype := detect d,
    format := "hf", is_gguf := false, is_hf := true,
    files := d.files.map (fun f => ⟨f.name, bytesToMB f.size, f.relpath⟩),
    is_usable := true }

/-- `ModelDiscoveryService._is_usable_model`: a GGUF artifact is usable when its
file exists (always so for a scanned entry); a directory artifact needs rounded
size at least 1 MB, a non-empty file list, at least one file whose name contains
a weight-file extension and at least one whose name contains `config.json`. -/
def isUsableModel (info : ModelInfo) : Bool :=
  if info.is_gguf then true
  else if qlt info.size_mb 1 then false
  else if info.files.isEmpty then false
  else
    (info.files.any fun f =>
      [".bin".data, ".safetensors".data, ".pt".data].any (fun e => isSubstring e f.name))
    && (info.files.any fun f => isSubstring "config.json".data f.name)

/-- One step of a stable insertion sort: place `x` before the first element it
does not strictly follow (Python `list.sort` is stable). -/
def insertSorted (le : α → α → Bool) (x : α) : List α → List α
  | [] => [x]
  | y :: ys => if le x y then x :: y :: ys else y :: insertSorted le x ys

/-- Stable insertion sort with a boolean total preorder (embeds Python `list.sort`). -/
def insSort (le : α → α → Bool) : List α → List α
  | [] => []
  | x :: xs => insertSorted le x (insSort le xs)

/-- Lexicographic string comparison, as Python compares `str` keys. -/
def nameLe : Name → Name → Bool
  | [], _ => true
  | _ :: _, [] => false
  | a :: as, b :: bs => if a < b then true else if b < a then false else nameLe as bs

/-- Sort key of `scan_models_cache`: embedding artifacts first, then by name. -/
def scanKeyLe (a b : ModelInfo) : Bool :=
  let ra : Nat := if a.mtype == "embedding" then 0 else 1
  let rb : Nat := if b.mtype == "embedding" then 0 else 1
  decide (ra < rb) || (ra == rb && nameLe a.name b.name)

/-- How `scan_models_cache` treats one entry of the cache root: a `.gguf` file
is analyzed as a packed model; a directory is analyzed only when it passes the
strict acceptance rule; an artifact is kept only when usable; everything else
is skipped silently. -/
def classifyEntry (detect : ModelDir → String) : CacheEntry → Option ModelInfo
  | CacheEntry.file name size =>
    if (pathSuffix name).map Char.toLower == ".gguf".data then
      let info := analyzeGgufFile name size
      if isUsableModel info then some info else none
    else none
  | CacheEntry.dir d =>
    if isValidModelDirectory d then
      let info := analyzeModelDirectory detect d
      if isUsableModel info then some info else none
    else none

/-- Result of `scan_models_cache` (for an existing cache root). -/
structure ScanResult where
  total_models : Nat
  models : List ModelInfo
deriving Repr

/-- `ModelDiscoveryService.scan_models_cache`: classify every entry of the cache
root, keep the accepted usable artifacts, sort embedding-first then by name. -/
def scanModelsCache (detect : ModelDir → String) (root : List CacheEntry) : ScanResult :=
  let models := insSort scanKeyLe (root.filterMap (classifyEntry detect))
  ⟨models.length, models⟩

/-! ### Capacity planner (`src/services/quantization_service.py`) -/

/-- Raw per-device data read from the accelerator driver: device name,
total / allocated / reserved memory in bytes. -/
structure DeviceProps where
  name : String
  total_memory : Nat
  allocated : Nat
  reserved : Nat
deriving DecidableEq, Repr

/-- A byte count in gigabytes, before any rounding: `bytes / 1024 ** 3`
(`mkRat b (1024 ** 3)` is exactly that quotient). -/
def toGB (b : Nat) : ℚ := mkRat b (1024 * 1024 * 1024)

/-- One per-device record of `get_gpu_memory_info`: the numeric memory fields,
each rounded exactly as the source rounds them. -/
structure GpuMemEntry where
  key : String
  name : String
  total_gb : ℚ
  allocated_gb : ℚ
  reserved_gb : ℚ
  free_gb : ℚ
  free_percent : ℚ
deriving DecidableEq, Repr

/-- The per-device computation inside `get_gpu_memory_info`: free memory is
total minus allocated (reserved is reported but never enters `free`). -/
def mkGpuEntry (idx : Nat) (p : DeviceProps) : GpuMemEntry :=
  let allocated := toGB p.allocated
  let reserved := toGB p.reserved
  let total := toGB p.total_memory
  let free := qsub total allocated
  { key := "cuda:" ++ toString idx, name := p.name,
    total_gb := round2 total, allocated_gb := round2 allocated,
    reserved_gb := round2 reserved, free_gb := round2 free,
    free_percent := round1 (qmul (qdiv free total) 100) }

/-- Result of `get_gpu_memory_info`: availability flag and per-device records. -/
structure GpuMemInfo where
  available : Bool
  gpus : List GpuMemEntry
deriving Repr

/-- `QuantizationService.get_gpu_memory_info`: unavailable without CUDA; a
device reporting zero total memory makes the division raise, which the catch-all
handler turns into an unavailable result; otherwise one record per device. -/
def getGpuMemoryInfo (cudaAvailable : Bool) (devices : List DeviceProps) : GpuMemInfo :=
  if !cudaAvailable then ⟨false, []⟩
  else if devices.any (fun p => p.total_memory == 0) then ⟨false, []⟩
  else ⟨true, devices.enum.map (fun e => mkGpuEntry e.1 e.2)⟩

/-- One recommendation record of `calculate_optimal_quantization`.  `forced` and
`warning` embed the keys the source adds only on the forced fallback (absent
embeds as `false` / the empty string). -/
structure QuantRec where
  level : String
  bits : Nat
  estimated_size_gb : ℚ
  required_vram_gb : ℚ
  can_fit : Bool
  vram_usage_percent : ℚ
  quality : String
  recommended : Bool
  forced : Bool
  warning : String
deriving DecidableEq, Repr, Inhabited

/-- The fixed `quantization_levels` table, in its source (dict insertion) order:
level name, bit-width, size-reduction factor, quality label. -/
def quantizationLevels : List (String × Nat × ℚ × String) :=
  [("fp32", 32, 1, "original"),
   ("fp16", 16, mkRat 1 2, "excellent"),
   ("bf16", 16, mkRat 1 2, "excellent"),
   ("8bit", 8, mkRat 1 4, "very good"),
   ("4bit", 4, mkRat 1 8, "good"),
   ("q4", 4, mkRat 1 8, "good")]

/-- One iteration of the recommendation loop: estimated size is the footprint
times the reduction factor, required memory adds the fixed 20% safety margin,
and the fit test compares the unrounded requirement with the probed free memory. -/
def mkQuantRec (size free total : ℚ) (lvl : String × Nat × ℚ × String) : QuantRec :=
  let estimated := qmul size lvl.2.2.1
  let required := qmul estimated (mkRat 6 5)
  { level := lvl.1, bits := lvl.2.1,
    estimated_size_gb := round2 estimated,
    required_vram_gb := round2 required,
    can_fit := qle required free,
    vram_usage_percent := round1 (qmul (qdiv required total) 100),
    quality := lvl.2.2.2,
    recommended := qle required free && decide (lvl.2.1 ≤ 8),
    forced := false, warning := "" }

/-- The sort key of the recommendation list: `(not can_fit, bits)` ascending. -/
def recLe (a b : QuantRec) : Bool :=
  let ka : Nat := if a.can_fit then 0 else 1
  let kb : Nat := if b.can_fit then 0 else 1
  decide (ka < kb) || (ka == kb && decide (a.bits ≤ b.bits))

/-- The full-plan part of the result of `calculate_optimal_quantization`. -/
structure QuantPlan where
  model_size_gb : ℚ
  target_gpu : GpuMemEntry
  free_vram_gb : ℚ
  total_vram_gb : ℚ
  recommendations : List QuantRec
  best_recommendation : QuantRec
  can_load : Bool
deriving Repr

/-- Result of `calculate_optimal_quantization`: either the early CPU answer
(GPU absent or target device not found) or a full plan. -/
inductive PlanResult where
  | cpu (reason : String) (can_load : Bool) (estimated_vram_usage_gb : ℚ)
  | plan (p : QuantPlan)
deriving Repr

/-- `QuantizationService.calculate_optimal_quantization`: probe the GPUs, bail
out to a CPU answer when unavailable or when the target device is missing;
otherwise build one recommendation per level, sort by `(not can_fit, bits)`,
pick the first fitting one as best, and when none fits take the LAST element of
the sorted list, mark it `forced` (the mutation is visible in the list as well,
since the source mutates the shared dict) and attach the warning text. -/
def calculateOptimalQuantization (cudaAvailable : Bool) (devices : List DeviceProps)
    (model_size_gb : ℚ) (target_device : String) : PlanResult :=
  let gpu := getGpuMemoryInfo cudaAvailable devices
  if !gpu.available then PlanResult.cpu "GPU not available" false model_size_gb
  else
    match gpu.gpus.find? (fun g => g.key == target_device) with
    | none => PlanResult.cpu "Target GPU not found" false model_size_gb
    | some g =>
      let free_vram := g.free_gb
      let total_vram := g.total_gb
      let recs := insSort recLe (quantizationLevels.map (mkQuantRec model_size_gb free_vram total_vram))
      match recs.find? (fun r => r.can_fit) with
      | some best => PlanResult.plan ⟨model_size_gb, g, free_vram, total_vram, recs, best, best.can_fit⟩
      | none =>
        let last := (recs.getLast?).getD default
        let best : QuantRec :=
          { last with
            forced := true
            warning := "The model does not fit even quantized: requires " ++
              toString last.required_vram_gb ++ "GB, available " ++ toString free_vram ++ "GB" }
        PlanResult.plan ⟨model_size_gb, g, free_vram, total_vram, recs.dropLast ++ [best], best, false⟩

/-! ### Derived predicates and projections used by the statements below -/

/-- Every key of the resident map is a fixed point of name normalization. -/
def residentNormalized (s : MState) : Prop :=
  ∀ p ∈ s, normalizeModelName p.1 = p.1

/-- The canonical cache-directory name `models--` + organization + `--` + model. -/
def canonicalDirName (org mdl : Name) : Name :=
  modelsTag ++ org ++ "--".data ++ mdl

/-- The recommendation list of a planner result (empty for the CPU early returns). -/
def planRecs : PlanResult → List QuantRec
  | PlanResult.plan p => p.recommendations
  | PlanResult.cpu _ _ _ => []

/-- The best recommendation of a planner result, when a full plan was produced. -/
def planBest : PlanResult → Option QuantRec
  | PlanResult.plan p => some p.best_recommendation
  | PlanResult.cpu _ _ _ => none

/-- The free-VRAM figure a full plan was computed against. -/
def planFreeVram : PlanResult → Option ℚ
  | PlanResult.plan p => some p.free_vram_gb
  | PlanResult.cpu _ _ _ => none

/-! ### Bridge lemmas: the embedded arithmetic is standard `ℚ` arithmetic -/

theorem qmul_eq (a b : ℚ) : qmul a b = a * b := by
  unfold qmul
  rw [Rat.mkRat_eq_div]
  push_cast
  conv_rhs => rw [← Rat.num_div_den a, ← Rat.num_div_den b]
  rw [div_mul_div_comm]

theorem qsub_eq (a b : ℚ) : qsub a b = a - b := by
  unfold qsub
  have had : (a.den : ℚ) ≠ 0 := Nat.cast_ne_zero.mpr a.den_nz
  have hbd : (b.den : ℚ) ≠ 0 := Nat.cast_ne_zero.mpr b.den_nz
  rw [Rat.mkRat_eq_div]
  push_cast
  conv_rhs => rw [← Rat.num_div_den a, ← Rat.num_div_den b]
  rw [div_sub_div _ _ had hbd]
  congr 1
  ring

theorem div_eq_cross (a b : ℚ) :
    a / b = ((a.num : ℚ) * (b.den : ℚ)) / ((a.den : ℚ) * (b.num : ℚ)) := by
  rw [div_eq_mul_inv]
  have hinv : b⁻¹ = (b.den : ℚ) / (b.num : ℚ) := by
    conv_lhs => rw [← Rat.num_div_den b]
    rw [inv_div]
  rw [hinv]
  conv_lhs => rw [← Rat.num_div_den a]
  rw [div_mul_div_comm]

theorem qdiv_eq (a b : ℚ) : qdiv a b = a / b := by
  unfold qdiv
  rcases lt_trichotomy b.num 0 with hneg | hzero | hpos
  · rw [if_neg (not_le.mpr hneg)]
    have h1 : (((-b.num).toNat : ℕ) : ℚ) = -(b.num : ℚ) := by
      have h0 := Int.toNat_of_nonneg (show (0:ℤ) ≤ -b.num by omega)
      exact_mod_cast congrArg (fun z : ℤ => (z : ℚ)) h0
    rw [Rat.mkRat_eq_div]
    push_cast
    rw [h1]
    have h2 : (a.den : ℚ) * -(b.num : ℚ) = -((a.den : ℚ) * (b.num : ℚ)) := by ring
    rw [h2, neg_div_neg_eq]
    exact (div_eq_cross a b).symm
  · rw [if_pos (le_of_eq hzero.symm)]
    have hb0 : b = 0 := Rat.num_eq_zero.mp hzero
    rw [hzero]
    simp [hb0]
  · rw [if_pos hpos.le]
    have h1 : ((b.num.toNat : ℕ) : ℚ) = (b.num : ℚ) := by
      have h0 := Int.toNat_of_nonneg hpos.le
      exact_mod_cast congrArg (fun z : ℤ => (z : ℚ)) h0
    rw [Rat.mkRat_eq_div]
    push_cast
    rw [h1]
    exact (div_eq_cross a b).symm

theorem qle_iff (a b : ℚ) : qle a b = true ↔ a ≤ b := by
  unfold qle
  rw [decide_eq_true_eq]
  exact Rat.le_def.symm

theorem qlt_iff (a b : ℚ) : qlt a b = true ↔ a < b := by
  unfold qlt
  rw [decide_eq_true_eq]
  exact Rat.lt_def.symm

theorem qlt_eq_false (a b : ℚ) : qlt a b = false ↔ b ≤ a := by
  rw [← Bool.not_eq_true, qlt_iff, not_lt]

theorem qle_eq_false (a b : ℚ) : qle a b = false ↔ b < a := by
  rw [← Bool.not_eq_true, qle_iff, not_le]

/-! ### Helper lemmas about the resident-map operations -/

theorem lookupKey_isSome_iff (k : Name) (s : MState) :
    (lookupKey k s).isSome = true ↔ k ∈ s.map Prod.fst := by
  induction s with
  | nil => simp [lookupKey]
  | cons p t ih =>
    obtain ⟨k', v⟩ := p
    by_cases h : k' = k
    · subst h; simp [lookupKey]
    · simp [lookupKey, h, ih, Ne.symm h]

theorem lookupKey_eraseKey_self (k : Name) (s : MState) :
    lookupKey k (eraseKey k s) = none := by
  induction s with
  | nil => simp [eraseKey, lookupKey]
  | cons p t ih =>
    obtain ⟨k', v⟩ := p
    by_cases h : k' = k
    · simp [eraseKey, h, ih]
    · simp [eraseKey, lookupKey, h, ih]

theorem eraseKey_sublist (k : Name) (s : MState) :
    List.Sublist (eraseKey k s) s := by
  induction s with
  | nil => simp [eraseKey]
  | cons p t ih =>
    obtain ⟨k', v⟩ := p
    by_cases h : k' = k
    · rw [show eraseKey k ((k', v) :: t) = eraseKey k t from by simp [eraseKey, h]]
      exact List.Sublist.cons (k', v) ih
    · rw [show eraseKey k ((k', v) :: t) = (k', v) :: eraseKey k t from by simp [eraseKey, h]]
      exact List.Sublist.cons₂ (k', v) ih

theorem keys_eraseKey_not_mem (k : Name) (s : MState) :
    k ∉ (eraseKey k s).map Prod.fst := by
  induction s with
  | nil => simp [eraseKey]
  | cons p t ih =>
    obtain ⟨k', v⟩ := p
    by_cases h : k' = k
    · simpa [eraseKey, h] using ih
    · simp [eraseKey, h, ih, Ne.symm h]

theorem keysNodup_eraseKey (k : Name) (s : MState) (h : keysNodup s) :
    keysNodup (eraseKey k s) :=
  List.Nodup.sublist ((eraseKey_sublist k s).map Prod.fst) h

theorem keysNodup_insertKey (k : Name) (v : LoadedEntry) (s : MState) (h : keysNodup s) :
    keysNodup (insertKey k v s) := by
  unfold keysNodup insertKey
  simp only [List.map_cons, List.nodup_cons]
  exact ⟨keys_eraseKey_not_mem k s, keysNodup_eraseKey k s h⟩

theorem lookupKey_insertKey_self (k : Name) (v : LoadedEntry) (s : MState) :
    lookupKey k (insertKey k v s) = some v := by
  simp [insertKey, lookupKey]

theorem countKey_eq_zero_of_not_mem (k : Name) (s : MState) (h : k ∉ s.map Prod.fst) :
    countKey k s = 0 := by
  induction s with
  | nil => simp [countKey]
  | cons p t ih =>
    obtain ⟨k', v⟩ := p
    simp only [List.map_cons, List.mem_cons, not_or] at h
    simp [countKey, Ne.symm h.1, ih h.2]

theorem countKey_eq_one (k : Name) (s : MState) (hnd : keysNodup s)
    (h : (lookupKey k s).isSome = true) : countKey k s = 1 := by
  induction s with
  | nil => simp [lookupKey] at h
  | cons p t ih =>
    obtain ⟨k', v⟩ := p
    have hnd' := hnd
    unfold keysNodup at hnd'
    simp only [List.map_cons, List.nodup_cons] at hnd'
    by_cases hk : k' = k
    · subst hk
      simp [countKey, countKey_eq_zero_of_not_mem k' t hnd'.1]
    · simp only [lookupKey, if_neg hk] at h
      simp [countKey, hk, ih hnd'.2 h]

/-! ### Helper lemmas about name normalization and `load_model` -/

theorem modelsTag_isPrefixOf_append (x : Name) :
    modelsTag.isPrefixOf (modelsTag ++ x) = true := by
  rw [List.isPrefixOf_iff_prefix]
  exact List.prefix_append modelsTag x

theorem normalizeModelName_eq_of_tag (n : Name) (h1 : modelsTag <+: n) :
    normalizeModelName n = n := by
  unfold normalizeModelName; simp [h1]

theorem normalizeModelName_eq_of_slash (n : Name) (h1 : ¬ modelsTag <+: n) (h2 : '/' ∈ n) :
    normalizeModelName n = modelsTag ++ replaceSlashes n := by
  unfold normalizeModelName; simp [h1, h2]

theorem normalizeModelName_eq_of_plain (n : Name) (h1 : ¬ modelsTag <+: n) (h2 : '/' ∉ n) :
    normalizeModelName n = n := by
  unfold normalizeModelName; simp [h1, h2]

theorem normalizeModelName_idem (n : Name) :
    normalizeModelName (normalizeModelName n) = normalizeModelName n := by
  by_cases h1 : modelsTag <+: n
  · rw [normalizeModelName_eq_of_tag n h1, normalizeModelName_eq_of_tag n h1]
  · by_cases h2 : '/' ∈ n
    · rw [normalizeModelName_eq_of_slash n h1 h2]
      exact normalizeModelName_eq_of_tag _ (List.prefix_append modelsTag (replaceSlashes n))
    · rw [normalizeModelName_eq_of_plain n h1 h2, normalizeModelName_eq_of_plain n h1 h2]

theorem normalizeModelName_fixed_shape (n : Name) (h : normalizeModelName n = n) :
    modelsTag <+: n ∨ '/' ∉ n := by
  by_cases h1 : modelsTag <+: n
  · exact Or.inl h1
  · by_cases h2 : '/' ∈ n
    · exfalso
      have hn := normalizeModelName_eq_of_slash n h1 h2
      rw [h] at hn
      exact h1 (hn.symm ▸ List.prefix_append modelsTag (replaceSlashes n))
    · exact Or.inr h2

theorem loadModel_of_resident (env : LoaderEnv) (s : MState) (name : Name) (mtype : String)
    (h : (lookupKey (normalizeModelName name) s).isSome = true) :
    loadModel env s name mtype = ⟨true, s, []⟩ := by
  unfold loadModel; simp [h]

theorem loadModel_of_absent (env : LoaderEnv) (s : MState) (name : Name) (mtype : String)
    (hres : lookupKey (normalizeModelName name) s = none)
    (hpath : getLocalModelPath env.fs name = none) :
    loadModel env s name mtype = ⟨false, s, []⟩ := by
  unfold loadModel; simp [hres, hpath]

theorem loadModel_shape (env : LoaderEnv) (s : MState) (name : Name) (mtype : String) :
    (loadModel env s name mtype = ⟨true, s, []⟩ ∧
      (lookupKey (normalizeModelName name) s).isSome = true) ∨
    ((loadModel env s name mtype).ok = false ∧ (loadModel env s name mtype).state = s) ∨
    (∃ m path,
      loadModel env s name mtype =
        ⟨true, insertKey (normalizeModelName name)
            ⟨mtype, "loaded", m, if env.cudaAvailable then "cuda" else "cpu", path⟩ s,
          [ManagerAction.loaderInvoke mtype path]⟩) := by
  by_cases hres : (lookupKey (normalizeModelName name) s).isSome = true
  · exact Or.inl ⟨loadModel_of_resident env s name mtype hres, hres⟩
  · cases hpath : getLocalModelPath env.fs name with
    | none =>
      refine Or.inr (Or.inl ?_)
      have := loadModel_of_absent env s name mtype (by
        cases hl : lookupKey (normalizeModelName name) s with
        | none => rfl
        | some v => exact absurd (by simp [hl]) hres) hpath
      simp [this]
    | some path =>
      by_cases hm1 : (mtype == "embedding") = true
      · cases hle : env.loadEmbedding path with
        | none =>
          refine Or.inr (Or.inl ?_)
          unfold loadModel
          simp [hres, hpath, hm1, hle]
        | some m =>
          refine Or.inr (Or.inr ⟨m, path, ?_⟩)
          unfold loadModel
          simp [hres, hpath, hm1, hle]
      · by_cases hm2 : (mtype == "llm") = true
        · cases hll : env.loadLLM path with
          | none =>
            refine Or.inr (Or.inl ?_)
            unfold loadModel
            simp [hres, hpath, hm1, hm2, hll]
          | some m =>
            refine Or.inr (Or.inr ⟨m, path, ?_⟩)
            unfold loadModel
            simp [hres, hpath, hm1, hm2, hll]
        · refine Or.inr (Or.inl ?_)
          unfold loadModel
          simp [hres, hpath, hm1, hm2]

theorem loadModel_ok_isSome (env : LoaderEnv) (s : MState) (name : Name) (mtype : String)
    (h : (loadModel env s name mtype).ok = true) :
    (lookupKey (normalizeModelName name) (loadModel env s name mtype).state).isSome = true := by
  rcases loadModel_shape env s name mtype with ⟨heq, hres⟩ | ⟨hok, _⟩ | ⟨m, path, heq⟩
  · rw [heq]; exact hres
  · rw [hok] at h; exact absurd h (by simp)
  · rw [heq]
    simp [lookupKey_insertKey_self]

theorem keysNodup_loadModel (env : LoaderEnv) (s : MState) (name : Name) (mtype : String)
    (h : keysNodup s) : keysNodup (loadModel env s name mtype).state := by
  rcases loadModel_shape env s name mtype with ⟨heq, _⟩ | ⟨_, hst⟩ | ⟨m, path, heq⟩
  · rw [heq]; exact h
  · rw [hst]; exact h
  · rw [heq]; exact keysNodup_insertKey _ _ s h

theorem unloadModel_of_none (s : MState) (name : Name)
    (hl : lookupKey (normalizeModelName name) s = none) :
    unloadModel s name = (false, s) := by
  simp [unloadModel, hl]

theorem unloadModel_of_some (s : MState) (name : Name) (v : LoadedEntry)
    (hl : lookupKey (normalizeModelName name) s = some v) :
    unloadModel s name = (true, eraseKey (normalizeModelName name) s) := by
  simp [unloadModel, hl]

theorem replaceSlashes_append (a b : Name) :
    replaceSlashes (a ++ b) = replaceSlashes a ++ replaceSlashes b := by
  induction a with
  | nil => simp [replaceSlashes]
  | cons c r ih =>
    by_cases h : c = '/'
    · simp [replaceSlashes, h, ih]
    · simp [replaceSlashes, h, ih]

theorem replaceSlashes_of_no_slash (a : Name) (h : '/' ∉ a) :
    replaceSlashes a = a := by
  induction a with
  | nil => simp [replaceSlashes]
  | cons c r ih =>
    simp only [List.mem_cons, not_or] at h
    simp [replaceSlashes, Ne.symm h.1, ih h.2]

/-! ### The claims -/

/-- **C1 — counterexample.**  The claim "for every model name that does not
resolve to an existing path in the local cache, `load` returns failure" fails
on a reachable state: `models--a--b` is loaded while its artifact exists, the
artifact is then deleted from the cache (the discovery service's `delete_model`
does exactly this), and a second `load` of the now-unresolvable name still
returns success, because the residency short-circuit precedes the existence
check. -/
theorem C1_counterexample :
    ((loadModel ⟨["models--a--b".data], true, fun _ => some 3, fun _ => none⟩ []
        "models--a--b".data "embedding").ok = true) ∧
    (getLocalModelPath [] "models--a--b".data = none) ∧
    ((loadModel ⟨[], true, fun _ => none, fun _ => none⟩
        (loadModel ⟨["models--a--b".data], true, fun _ => some 3, fun _ => none⟩ []
          "models--a--b".data "embedding").state
        "models--a--b".data "embedding").ok = true) := by
  decide

/-- **C1 (amended).**  For every model name whose normalized form is not already
resident and that does not resolve to an existing path in the local cache,
`load_model` returns failure, leaves the resident map exactly unchanged, and
performs no action at all — in particular no network fetch. -/
theorem C1_spec (env : LoaderEnv) (s : MState) (name : Name) (mtype : String)
    (hres : lookupKey (normalizeModelName name) s = none)
    (hpath : getLocalModelPath env.fs name = none) :
    loadModel env s name mtype = ⟨false, s, []⟩ ∧
    ManagerAction.networkFetch ∉ (loadModel env s name mtype).actions := by
  have h := loadModel_of_absent env s name mtype hres hpath
  exact ⟨h, by rw [h]; simp⟩

/-- **C1 — witness.**  The amended claim at a concrete input: an empty cache
and empty resident map, loading `absent/model`. -/
theorem C1_witness :
    loadModel ⟨[], false, fun _ => none, fun _ => none⟩ [] "absent/model".data "embedding" =
        ⟨false, [], []⟩ ∧
    ManagerAction.networkFetch ∉
      (loadModel ⟨[], false, fun _ => none, fun _ => none⟩ []
        "absent/model".data "embedding").actions :=
  C1_spec ⟨[], false, fun _ => none, fun _ => none⟩ [] "absent/model".data "embedding"
    (by decide) (by decide)

/-- **C2.**  Calling `load_model` twice with the same arguments and no
intervening unload: if the first call succeeds (on a dict-like resident map),
the second call also succeeds, changes nothing, and the resident map holds
exactly one entry for the normalized name. -/
theorem C2_spec (env : LoaderEnv) (s : MState) (name : Name) (mtype : String)
    (hnd : keysNodup s) (h1 : (loadModel env s name mtype).ok = true) :
    (loadModel env ((loadModel env s name mtype).state) name mtype).ok = true ∧
    (loadModel env ((loadModel env s name mtype).state) name mtype).state =
      (loadModel env s name mtype).state ∧
    countKey (normalizeModelName name) (loadModel env s name mtype).state = 1 := by
  have hsome := loadModel_ok_isSome env s name mtype h1
  have hnd' := keysNodup_loadModel env s name mtype hnd
  have h2 := loadModel_of_resident env ((loadModel env s name mtype).state) name mtype hsome
  exact ⟨by rw [h2], by rw [h2], countKey_eq_one _ _ hnd' hsome⟩

/-- **C2 — witness.**  A concrete double load of `org/m` from a cache holding
`models--org--m`: after the first successful call the normalized name has
exactly one resident entry. -/
theorem C2_witness :
    countKey (normalizeModelName "org/m".data)
      ((loadModel ⟨["models--org--m".data], true, fun _ => some 7, fun _ => none⟩ []
        "org/m".data "embedding").state) = 1 :=
  (C2_spec ⟨["models--org--m".data], true, fun _ => some 7, fun _ => none⟩ []
    "org/m".data "embedding" (by simp [keysNodup]) (by decide)).2.2

/-- **C3 — counterexample.**  The claim quantifies over every organization and
model name, but for `org = "models--a"`, `model = "b"` the two forms do not
address the same slot: `models--a/b` already starts with the canonical marker
and is kept verbatim as a key, while the canonical form is
`models--models--a--b`; a successful load under the first form is invisible to
`is_model_loaded` under the second. -/
theorem C3_counterexample :
    ((loadModel ⟨["models--a/b".data], false, fun _ => some 0, fun _ => none⟩ []
        "models--a/b".data "embedding").ok = true) ∧
    isModelLoaded
      ((loadModel ⟨["models--a/b".data], false, fun _ => some 0, fun _ => none⟩ []
        "models--a/b".data "embedding").state)
      "models--models--a--b".data = false := by
  decide

/-- **C3 (amended).**  For every organization and model name that contain no
path separator and whose `org/model` form does not itself start with the
canonical `models--` marker, both forms normalize to the same key, so
`is_model_loaded`, `get_model` and `unload_model` address the same resident
slot under either form, and after a successful load under the `org/model` form
the canonical form reports loaded. -/
theorem C3_spec (org mdl : Name) (s : MState)
    (h1 : ¬ modelsTag <+: (org ++ '/' :: mdl)) (h2 : '/' ∉ org) (h3 : '/' ∉ mdl) :
    normalizeModelName (org ++ '/' :: mdl) = normalizeModelName (canonicalDirName org mdl) ∧
    isModelLoaded s (org ++ '/' :: mdl) = isModelLoaded s (canonicalDirName org mdl) ∧
    getModel s (org ++ '/' :: mdl) = getModel s (canonicalDirName org mdl) ∧
    unloadModel s (org ++ '/' :: mdl) = unloadModel s (canonicalDirName org mdl) ∧
    (∀ (env : LoaderEnv) (mtype : String),
      (loadModel env s (org ++ '/' :: mdl) mtype).ok = true →
      isModelLoaded (loadModel env s (org ++ '/' :: mdl) mtype).state
        (canonicalDirName org mdl) = true) := by
  have hslash : '/' ∈ org ++ '/' :: mdl := by simp
  have hkey : normalizeModelName (org ++ '/' :: mdl) = canonicalDirName org mdl := by
    rw [normalizeModelName_eq_of_slash _ h1 hslash, replaceSlashes_append,
      replaceSlashes_of_no_slash org h2]
    show modelsTag ++ (org ++ replaceSlashes ('/' :: mdl)) = canonicalDirName org mdl
    rw [show replaceSlashes ('/' :: mdl) = '-' :: '-' :: replaceSlashes mdl from by
      simp [replaceSlashes]]
    rw [replaceSlashes_of_no_slash mdl h3]
    simp [canonicalDirName]
  have hcanon : normalizeModelName (canonicalDirName org mdl) = canonicalDirName org mdl := by
    apply normalizeModelName_eq_of_tag
    show modelsTag <+: modelsTag ++ org ++ "--".data ++ mdl
    simpa [List.append_assoc] using
      List.prefix_append modelsTag (org ++ "--".data ++ mdl)
  have hnorm : normalizeModelName (org ++ '/' :: mdl) =
      normalizeModelName (canonicalDirName org mdl) := by rw [hkey, hcanon]
  refine ⟨hnorm, ?_, ?_, ?_, ?_⟩
  · unfold isModelLoaded; rw [hnorm]
  · unfold getModel; rw [hnorm]
  · unfold unloadModel; rw [hnorm]
  · intro env mtype hok
    have := loadModel_ok_isSome env s (org ++ '/' :: mdl) mtype hok
    unfold isModelLoaded
    rw [← hnorm]
    exact this

/-- **C3 — witness.**  The amended claim at `org = "org"`, `model = "m"`: the
two forms normalize to the same key. -/
theorem C3_witness :
    normalizeModelName ("org".data ++ '/' :: "m".data) =
      normalizeModelName (canonicalDirName "org".data "m".data) :=
  (C3_spec "org".data "m".data [] (by decide) (by decide) (by decide)).1

/-- **C4.**  After `unload_model` returns true, `is_model_loaded` is false and
`get_model` is absent for that name; and for every name whose normalized form
is not resident, `unload_model` returns false and leaves the resident map
unchanged (a benign no-op). -/
theorem C4_spec (s : MState) (name : Name) (h : (unloadModel s name).1 = true) :
    isModelLoaded (unloadModel s name).2 name = false ∧
    getModel (unloadModel s name).2 name = none ∧
    ∀ (s' : MState) (name' : Name), lookupKey (normalizeModelName name') s' = none →
      (unloadModel s' name').1 = false ∧ (unloadModel s' name').2 = s' := by
  have hsome : ∃ v, lookupKey (normalizeModelName name) s = some v := by
    cases hl : lookupKey (normalizeModelName name) s with
    | none => rw [unloadModel_of_none s name hl] at h; exact absurd h (by simp)
    | some v => exact ⟨v, rfl⟩
  obtain ⟨v, hl⟩ := hsome
  rw [unloadModel_of_some s name v hl]
  refine ⟨?_, ?_, ?_⟩
  · unfold isModelLoaded
    simp [lookupKey_eraseKey_self]
  · unfold getModel
    simp [lookupKey_eraseKey_self]
  · intro s' name' hl'
    rw [unloadModel_of_none s' name' hl']
    exact ⟨rfl, rfl⟩

/-- **C4 — witness.**  Unloading the resident name `models--x` makes it absent. -/
theorem C4_witness :
    isModelLoaded
      ((unloadModel [("models--x".data, ⟨"llm", "loaded", 1, "cpu", "models--x".data⟩)]
        "models--x".data).2) "models--x".data = false :=
  (C4_spec [("models--x".data, ⟨"llm", "loaded", 1, "cpu", "models--x".data⟩)]
    "models--x".data (by decide)).1

/-- **C9.**  Name normalization is idempotent; on a resident map whose keys are
all fixed points of normalization, `load_model` and `unload_model` preserve
that invariant (lookups do not modify the map at all), and every fixed point
either starts with the `models--` marker or contains no path separator. -/
theorem C9_spec (n : Name) (s : MState) (hs : residentNormalized s) :
    normalizeModelName (normalizeModelName n) = normalizeModelName n ∧
    (∀ (env : LoaderEnv) (name : Name) (mtype : String),
      residentNormalized (loadModel env s name mtype).state) ∧
    (∀ name : Name, residentNormalized (unloadModel s name).2) ∧
    (∀ p ∈ s, modelsTag <+: p.1 ∨ '/' ∉ p.1) := by
  refine ⟨normalizeModelName_idem n, ?_, ?_, ?_⟩
  · intro env name mtype
    rcases loadModel_shape env s name mtype with ⟨heq, _⟩ | ⟨_, hst⟩ | ⟨m, path, heq⟩
    · rw [heq]; exact hs
    · rw [hst]; exact hs
    · rw [heq]
      intro p hp
      rcases List.mem_cons.mp hp with hfst | htail
      · rw [hfst]
        exact normalizeModelName_idem name
      · exact hs p (List.Sublist.mem htail (eraseKey_sublist _ s))
  · intro name p hp
    cases hl : lookupKey (normalizeModelName name) s with
    | none =>
      rw [unloadModel_of_none s name hl] at hp
      exact hs p hp
    | some v =>
      rw [unloadModel_of_some s name v hl] at hp
      exact hs p (List.Sublist.mem hp (eraseKey_sublist _ s))
  · intro p hp
    exact normalizeModelName_fixed_shape p.1 (hs p hp)

/-- **C9 — witness.**  Idempotence of normalization at the concrete name `a/b`
(starting from the empty, trivially normalized resident map). -/
theorem C9_witness :
    normalizeModelName (normalizeModelName "a/b".data) = normalizeModelName "a/b".data :=
  (C9_spec "a/b".data [] (by intro p hp; exact absurd hp (List.not_mem_nil p))).1

/-! ### Helper lemmas about the scanner -/

theorem mem_insertSorted {α : Type} (le : α → α → Bool) (x a : α) (l : List α) :
    a ∈ insertSorted le x l ↔ a = x ∨ a ∈ l := by
  induction l with
  | nil => simp [insertSorted]
  | cons y ys ih =>
    by_cases h : le x y = true
    · simp [insertSorted, h]
    · simp only [insertSorted, if_neg h, List.mem_cons, ih]
      tauto

theorem mem_insSort {α : Type} (le : α → α → Bool) (a : α) (l : List α) :
    a ∈ insSort le l ↔ a ∈ l := by
  induction l with
  | nil => simp [insSort]
  | cons x xs ih => simp [insSort, mem_insertSorted, ih]

theorem classifyEntry_dir_eq_some (detect : ModelDir → String) (d : ModelDir)
    (info : ModelInfo) (h : classifyEntry detect (CacheEntry.dir d) = some info) :
    isValidModelDirectory d = true ∧ info = analyzeModelDirectory detect d ∧
    isUsableModel (analyzeModelDirectory detect d) = true := by
  simp only [classifyEntry] at h
  by_cases hv : isValidModelDirectory d = true
  · rw [if_pos hv] at h
    by_cases hu : isUsableModel (analyzeModelDirectory detect d) = true
    · rw [if_pos hu] at h
      exact ⟨hv, (Option.some_inj.mp h).symm, hu⟩
    · rw [if_neg hu] at h
      exact absurd h (by simp)
  · rw [if_neg hv] at h
    exact absurd h (by simp)

theorem classifyEntry_file_not_hf (detect : ModelDir → String) (name : Name) (size : Nat)
    (info : ModelInfo) (h : classifyEntry detect (CacheEntry.file name size) = some info) :
    info.is_hf = false := by
  simp only [classifyEntry] at h
  by_cases hs : ((pathSuffix name).map Char.toLower == ".gguf".data) = true
  · rw [if_pos hs] at h
    by_cases hu : isUsableModel (analyzeGgufFile name size) = true
    · rw [if_pos hu] at h
      rw [← Option.some_inj.mp h]
      rfl
    · rw [if_neg hu] at h
      exact absurd h (by simp)
  · rw [if_neg hs] at h
    exact absurd h (by simp)

/-- **C5 — counterexample.**  A directory named exactly `models--` (which starts
with the canonical marker but cannot be written as `models--` + organization +
`--` + model-name) containing a `config.json` and a weight file is included by
the scan, so inclusion does not require matching the full canonical convention. -/
theorem C5_counterexample :
    ((scanModelsCache (fun _ => "llm")
        [CacheEntry.dir ⟨"models--".data,
          [⟨"config.json".data, 1048576, "config.json".data⟩,
           ⟨"model.bin".data, 1048576, "model.bin".data⟩]⟩]).models.map
        (fun i => i.name) = ["models--".data]) ∧
    ∀ org mdl : Name, "models--".data ≠ canonicalDirName org mdl := by
  constructor
  · decide
  · intro org mdl h
    have hlen := congrArg List.length h
    rw [canonicalDirName] at hlen
    simp only [List.length_append] at hlen
    have e1 : ("models--".data).length = 8 := by decide
    have e2 : modelsTag.length = 8 := by decide
    have e3 : ("--".data).length = 2 := by decide
    rw [e1, e2, e3] at hlen
    omega

/-- **C5 (amended).**  The scan includes a directory entry only if its name
starts with the canonical `models--` marker AND a `config.json` descriptor
exists at its top level (plus the usability filter); and a root with one
well-formed usable directory artifact and one directory missing its config
descriptor yields exactly that one artifact, the malformed one being silently
omitted. -/
theorem C5_spec (detect : ModelDir → String) (root : List CacheEntry) (info : ModelInfo)
    (good bad : ModelDir)
    (hmem : info ∈ (scanModelsCache detect root).models) (hhf : info.is_hf = true)
    (hgoodv : isValidModelDirectory good = true)
    (hgoodu : isUsableModel (analyzeModelDirectory detect good) = true)
    (hbadcfg : (bad.files.any fun f => f.relpath == "config.json".data) = false) :
    (∃ d : ModelDir, CacheEntry.dir d ∈ root ∧ info = analyzeModelDirectory detect d ∧
      modelsTag.isPrefixOf d.name = true ∧
      (d.files.any fun f => f.relpath == "config.json".data) = true) ∧
    (scanModelsCache detect [CacheEntry.dir good, CacheEntry.dir bad]).models =
      [analyzeModelDirectory detect good] ∧
    (scanModelsCache detect [CacheEntry.dir good, CacheEntry.dir bad]).total_models = 1 := by
  have hgoodc : classifyEntry detect (CacheEntry.dir good) =
      some (analyzeModelDirectory detect good) := by
    simp only [classifyEntry]
    rw [if_pos hgoodv, if_pos hgoodu]
  have hbadv : isValidModelDirectory bad = false := by
    unfold isValidModelDirectory
    rw [hbadcfg]
    simp
  have hbadc : classifyEntry detect (CacheEntry.dir bad) = none := by
    simp only [classifyEntry]
    rw [if_neg (by simp [hbadv])]
  refine ⟨?_, ?_, ?_⟩
  · simp only [scanModelsCache] at hmem
    rw [mem_insSort] at hmem
    obtain ⟨entry, hentry, hcl⟩ := List.mem_filterMap.mp hmem
    cases entry with
    | file nm sz =>
      exact absurd hhf (by rw [classifyEntry_file_not_hf detect nm sz info hcl]; simp)
    | dir d =>
      obtain ⟨hv, hinfo, _⟩ := classifyEntry_dir_eq_some detect d info hcl
      rw [isValidModelDirectory, Bool.and_eq_true] at hv
      exact ⟨d, hentry, hinfo, hv.1, hv.2⟩
  · simp only [scanModelsCache]
    rw [List.filterMap_cons, List.filterMap_cons, hgoodc, hbadc]
    simp [insSort, insertSorted]
  · simp only [scanModelsCache]
    rw [List.filterMap_cons, List.filterMap_cons, hgoodc, hbadc]
    simp [insSort, insertSorted]

/-- **C5 — witness.**  The amended claim at a concrete root: a well-formed
`models--org--m` directory plus a directory with no config descriptor scan to
exactly the one good artifact. -/
theorem C5_witness :
    (scanModelsCache (fun _ => "llm")
      [CacheEntry.dir ⟨"models--org--m".data,
        [⟨"config.json".data, 1048576, "config.json".data⟩,
         ⟨"model.bin".data, 1048576, "model.bin".data⟩]⟩,
       CacheEntry.dir ⟨"models--org--broken".data,
        [⟨"model.bin".data, 1048576, "model.bin".data⟩]⟩]).total_models = 1 :=
  (C5_spec (fun _ => "llm")
    [CacheEntry.dir ⟨"models--org--m".data,
      [⟨"config.json".data, 1048576, "config.json".data⟩,
       ⟨"model.bin".data, 1048576, "model.bin".data⟩]⟩]
    (analyzeModelDirectory (fun _ => "llm")
      ⟨"models--org--m".data,
        [⟨"config.json".data, 1048576, "config.json".data⟩,
         ⟨"model.bin".data, 1048576, "model.bin".data⟩]⟩)
    ⟨"models--org--m".data,
      [⟨"config.json".data, 1048576, "config.json".data⟩,
       ⟨"model.bin".data, 1048576, "model.bin".data⟩]⟩
    ⟨"models--org--broken".data, [⟨"model.bin".data, 1048576, "model.bin".data⟩]⟩
    (by decide) (by decide) (by decide) (by decide) (by decide)).2.2

/-! ### Helper lemmas about the planner -/

theorem length_insertSorted {α : Type} (le : α → α → Bool) (x : α) (l : List α) :
    (insertSorted le x l).length = l.length + 1 := by
  induction l with
  | nil => simp [insertSorted]
  | cons y ys ih =>
    by_cases h : le x y = true
    · simp [insertSorted, h]
    · simp [insertSorted, h, ih]

theorem length_insSort {α : Type} (le : α → α → Bool) (l : List α) :
    (insSort le l).length = l.length := by
  induction l with
  | nil => simp [insSort]
  | cons x xs ih => simp [insSort, length_insertSorted, ih]

theorem getLastD_mem {α : Type} (l : List α) (d : α) (h : l ≠ []) :
    (l.getLast?).getD d ∈ l := by
  cases hl : l.getLast? with
  | none => exact absurd (List.getLast?_eq_none_iff.mp hl) h
  | some a =>
    obtain ⟨hne, heq⟩ := List.mem_getLast?_eq_getLast (show a ∈ l.getLast? by simp [hl])
    simpa [hl] using heq ▸ List.getLast_mem hne

theorem mem_recsOf (size free total : ℚ) (r : QuantRec)
    (h : r ∈ insSort recLe (quantizationLevels.map (mkQuantRec size free total))) :
    ∃ lvl ∈ quantizationLevels, r = mkQuantRec size free total lvl := by
  rw [mem_insSort] at h
  obtain ⟨lvl, hlvl, heq⟩ := List.mem_map.mp h
  exact ⟨lvl, hlvl, heq.symm⟩

theorem calcOptimal_plan_shape (avail : Bool) (devices : List DeviceProps) (size : ℚ)
    (target : String) (q : QuantPlan)
    (h : calculateOptimalQuantization avail devices size target = PlanResult.plan q) :
    ∃ g, (getGpuMemoryInfo avail devices).gpus.find? (fun x => x.key == target) = some g ∧
      q.free_vram_gb = g.free_gb ∧ q.total_vram_gb = g.total_gb ∧
      (∀ r ∈ q.recommendations, ∃ lvl ∈ quantizationLevels,
        r.can_fit = (mkQuantRec size g.free_gb g.total_gb lvl).can_fit ∧
        r.bits = (mkQuantRec size g.free_gb g.total_gb lvl).bits) := by
  unfold calculateOptimalQuantization at h
  by_cases hav : (getGpuMemoryInfo avail devices).available = true
  · simp only [hav, Bool.not_true, Bool.false_eq_true, if_false] at h
    cases hfind : (getGpuMemoryInfo avail devices).gpus.find? (fun g => g.key == target) with
    | none => rw [hfind] at h; exact absurd h (by simp)
    | some g =>
      rw [hfind] at h
      simp only [] at h
      refine ⟨g, rfl, ?_⟩
      have hlen : (insSort recLe
          (quantizationLevels.map (mkQuantRec size g.free_gb g.total_gb))).length = 6 := by
        rw [length_insSort, List.length_map]
        rfl
      cases hbest : (insSort recLe
          (quantizationLevels.map (mkQuantRec size g.free_gb g.total_gb))).find?
          (fun r => r.can_fit) with
      | some best =>
        rw [hbest] at h
        cases h
        refine ⟨rfl, rfl, ?_⟩
        intro r hr
        obtain ⟨lvl, hlvl, rfl⟩ := mem_recsOf size g.free_gb g.total_gb r hr
        exact ⟨lvl, hlvl, rfl, rfl⟩
      | none =>
        rw [hbest] at h
        cases h
        refine ⟨rfl, rfl, ?_⟩
        intro r hr
        rcases List.mem_append.mp hr with hdrop | hlast
        · obtain ⟨lvl, hlvl, rfl⟩ := mem_recsOf size g.free_gb g.total_gb r
            ((List.dropLast_sublist _).mem hdrop)
          exact ⟨lvl, hlvl, rfl, rfl⟩
        · have hr' : r = { ((insSort recLe
              (quantizationLevels.map (mkQuantRec size g.free_gb g.total_gb))).getLast?).getD
                default with
              forced := true
              warning := "The model does not fit even quantized: requires " ++
                toString (((insSort recLe
                  (quantizationLevels.map (mkQuantRec size g.free_gb
                    g.total_gb))).getLast?).getD default).required_vram_gb ++
                "GB, available " ++ toString g.free_gb ++ "GB" } := by
            simpa using hlast
          have hmem : ((insSort recLe
              (quantizationLevels.map (mkQuantRec size g.free_gb g.total_gb))).getLast?).getD
                default ∈ insSort recLe
                  (quantizationLevels.map (mkQuantRec size g.free_gb g.total_gb)) :=
            getLastD_mem _ _ (by intro hnil; rw [hnil] at hlen; simp at hlen)
          obtain ⟨lvl, hlvl, hre⟩ := mem_recsOf size g.free_gb g.total_gb _ hmem
          refine ⟨lvl, hlvl, ?_, ?_⟩
          · rw [hr']
            show (((insSort recLe (quantizationLevels.map (mkQuantRec size g.free_gb
                g.total_gb))).getLast?).getD default).can_fit = _
            rw [hre]
          · rw [hr']
            show (((insSort recLe (quantizationLevels.map (mkQuantRec size g.free_gb
                g.total_gb))).getLast?).getD default).bits = _
            rw [hre]
  · simp only [Bool.not_eq_true] at hav
    simp only [hav] at h
    exact absurd h (by simp)

theorem reduction_antitone : ∀ la ∈ quantizationLevels, ∀ lb ∈ quantizationLevels,
    la.2.1 ≤ lb.2.1 → la.2.2.1 ≤ lb.2.2.1 := by decide

theorem mkRat_6_5_nonneg : (0 : ℚ) ≤ mkRat 6 5 := by
  rw [Rat.mkRat_eq_div]; norm_num

/-- **C6.**  For every directory artifact, the usability check returns true
exactly when the artifact's file list holds at least one weight file and at
least one configuration file and the artifact's recorded total size is at
least the 1 MB threshold (a size below 1 MB vetoes usability regardless of the
files present). -/
theorem C6_spec (detect : ModelDir → String) (d : ModelDir) :
    isUsableModel (analyzeModelDirectory detect d) = true ↔
      (1 ≤ (analyzeModelDirectory detect d).size_mb ∧
       (∃ f ∈ (analyzeModelDirectory detect d).files,
         ([".bin".data, ".safetensors".data, ".pt".data].any fun e =>
           isSubstring e f.name) = true) ∧
       (∃ f ∈ (analyzeModelDirectory detect d).files,
         isSubstring "config.json".data f.name = true)) := by
  have hgg : (analyzeModelDirectory detect d).is_gguf = false := rfl
  unfold isUsableModel
  rw [hgg]
  by_cases hsz : qlt (analyzeModelDirectory detect d).size_mb 1 = true
  · rw [if_neg (by simp), if_pos hsz]
    constructor
    · intro hfalse; exact absurd hfalse (by simp)
    · rintro ⟨h1, _, _⟩
      exact absurd ((qlt_iff _ _).mp hsz) (not_lt.mpr h1)
  · have hge : 1 ≤ (analyzeModelDirectory detect d).size_mb :=
      (qlt_eq_false _ _).mp (Bool.eq_false_iff.mpr hsz)
    by_cases hemp : (analyzeModelDirectory detect d).files.isEmpty = true
    · rw [if_neg (by simp), if_neg hsz, if_pos hemp]
      constructor
      · intro hfalse; exact absurd hfalse (by simp)
      · rintro ⟨_, ⟨f, hf, _⟩, _⟩
        rw [List.isEmpty_iff.mp hemp] at hf
        exact absurd hf (List.not_mem_nil f)
    · rw [if_neg (by simp), if_neg hsz, if_neg hemp]
      rw [Bool.and_eq_true, List.any_eq_true, List.any_eq_true]
      constructor
      · rintro ⟨⟨f1, hf1, hw⟩, ⟨f2, hf2, hc⟩⟩
        exact ⟨hge, ⟨f1, hf1, hw⟩, ⟨f2, hf2, hc⟩⟩
      · rintro ⟨_, ⟨f1, hf1, hw⟩, ⟨f2, hf2, hc⟩⟩
        exact ⟨⟨f1, hf1, hw⟩, ⟨f2, hf2, hc⟩⟩

/-- **C7 — the code is wrong here.**  At footprint 100 GB against a device with
8 GB total and 4 GB allocated (4 GB free) no level fits, and the planner indeed
returns a `forced` best with a non-empty warning whose requirement (120 GB)
exceeds the 4 GB free — but the level it picks is `fp32` (32-bit, the LEAST
aggressive), not the most aggressive one: after sorting ascending by
`(not can_fit, bits)` the code takes `recommendations[-1]`, which is the
highest-bit non-fitting level, contradicting its own comment ("предлагаем самое
агрессивное квантование" — offer the most aggressive quantization). -/
theorem C7_spec :
    (planBest (calculateOptimalQuantization true
        [⟨"gpu0", 8589934592, 4294967296, 0⟩] 100 "cuda:0")).map
        (fun r => (r.level, r.bits, r.forced, r.required_vram_gb, decide (r.warning = ""))) =
      some ("fp32", 32, true, 120, false) ∧
    planFreeVram (calculateOptimalQuantization true
        [⟨"gpu0", 8589934592, 4294967296, 0⟩] 100 "cuda:0") = some 4 := by
  decide

/-- **C8.**  For a fixed footprint (a nonnegative size) and a fixed memory
snapshot, the fits flag of the planner's recommendations is monotone in
bit-width: if a higher-bit-width level fits, every lower-bit-width level in
the fixed set fits as well. -/
theorem C8_spec (avail : Bool) (devices : List DeviceProps) (size : ℚ) (target : String)
    (ra rb : QuantRec) (hsize : 0 ≤ size)
    (hra : ra ∈ planRecs (calculateOptimalQuantization avail devices size target))
    (hrb : rb ∈ planRecs (calculateOptimalQuantization avail devices size target))
    (hbits : ra.bits ≤ rb.bits) (hfit : rb.can_fit = true) : ra.can_fit = true := by
  cases hq : calculateOptimalQuantization avail devices size target with
  | cpu reason cl est =>
    rw [hq] at hra
    exact absurd hra (by simp [planRecs])
  | plan q =>
    rw [hq] at hra hrb
    simp only [planRecs] at hra hrb
    obtain ⟨g, _, _, _, hshape⟩ := calcOptimal_plan_shape avail devices size target q hq
    obtain ⟨la, hla, hafit, habits⟩ := hshape ra hra
    obtain ⟨lb, hlb, hbfit, hbbits⟩ := hshape rb hrb
    rw [habits, hbbits] at hbits
    simp only [mkQuantRec] at hbits
    rw [hbfit] at hfit
    rw [hafit]
    simp only [mkQuantRec] at hfit ⊢
    rw [qle_iff] at hfit ⊢
    rw [qmul_eq, qmul_eq] at hfit ⊢
    have hred : la.2.2.1 ≤ lb.2.2.1 := reduction_antitone la hla lb hlb hbits
    calc size * la.2.2.1 * mkRat 6 5
        ≤ size * lb.2.2.1 * mkRat 6 5 := by
          apply mul_le_mul_of_nonneg_right _ mkRat_6_5_nonneg
          exact mul_le_mul_of_nonneg_left hred hsize
      _ ≤ g.free_gb := hfit

/-- **C8 — witness.**  A 1 GB footprint against an 8 GB free device: `fp32`
fits, so the theorem applied with `ra = rb = fp32` gives its fits flag. -/
theorem C8_witness :
    (mkQuantRec 1 8 8 ("fp32", 32, 1, "original")).can_fit = true :=
  C8_spec true [⟨"gpu0", 8589934592, 0, 0⟩] 1 "cuda:0"
    (mkQuantRec 1 8 8 ("fp32", 32, 1, "original"))
    (mkQuantRec 1 8 8 ("fp32", 32, 1, "original"))
    (by norm_num) (by decide) (by decide) (by decide) (by decide)

/-- **C10.**  The accelerator probe defines free memory as total minus
allocated, ignoring reserved memory entirely: `free_gb` is the rounded
`total − allocated`, `free_percent` is the rounded `(free / total) × 100`,
changing the reserved figure changes neither, and the planner's fits flags are
decided against exactly this `free_gb` figure of the probed target device. -/
theorem C10_spec (idx : Nat) (p : DeviceProps) (r' : Nat) (htot : p.total_memory ≠ 0) :
    (mkGpuEntry idx p).free_gb = round2 (toGB p.total_memory - toGB p.allocated) ∧
    (mkGpuEntry idx p).free_percent =
      round1 ((toGB p.total_memory - toGB p.allocated) / toGB p.total_memory * 100) ∧
    (mkGpuEntry idx { p with reserved := r' }).free_gb = (mkGpuEntry idx p).free_gb ∧
    (mkGpuEntry idx { p with reserved := r' }).free_percent = (mkGpuEntry idx p).free_percent ∧
    (∀ (avail : Bool) (devices : List DeviceProps) (size : ℚ) (target : String) (q : QuantPlan),
      calculateOptimalQuantization avail devices size target = PlanResult.plan q →
      ∃ g, (getGpuMemoryInfo avail devices).gpus.find? (fun x => x.key == target) = some g ∧
        q.free_vram_gb = g.free_gb ∧
        ∀ r ∈ q.recommendations, ∃ lvl ∈ quantizationLevels,
          (r.can_fit = true ↔ size * lvl.2.2.1 * mkRat 6 5 ≤ g.free_gb)) := by
  refine ⟨?_, ?_, rfl, rfl, ?_⟩
  · show round2 (qsub (toGB p.total_memory) (toGB p.allocated)) = _
    rw [qsub_eq]
  · show round1 (qmul (qdiv (qsub (toGB p.total_memory) (toGB p.allocated))
      (toGB p.total_memory)) 100) = _
    rw [qsub_eq, qdiv_eq, qmul_eq]
  · intro avail devices size target q hq
    obtain ⟨g, hfind, hfree, _, hshape⟩ := calcOptimal_plan_shape avail devices size target q hq
    refine ⟨g, hfind, hfree, ?_⟩
    intro r hr
    obtain ⟨lvl, hlvl, hfit, _⟩ := hshape r hr
    refine ⟨lvl, hlvl, ?_⟩
    rw [hfit]
    simp only [mkQuantRec]
    rw [qle_iff, qmul_eq, qmul_eq]

/-- **C10 — witness.**  A 1 GiB device with nothing allocated and some reserved
bytes: the probe's free figure is the rounded `total − allocated`. -/
theorem C10_witness :
    (mkGpuEntry 0 ⟨"gpu0", 1073741824, 0, 12345⟩).free_gb =
      round2 (toGB 1073741824 - toGB 0) :=
  (C10_spec 0 ⟨"gpu0", 1073741824, 0, 12345⟩ 5 (by decide)).1

end Tamivla
